import Mathlib

/-!
Verification of the osrs-archive piece download / reassembly / slicing engine.

Shallow embedding of `src/downloader.rs` and the manifest data model of
`src/config.rs`.  Stateful filesystem code is modelled by explicit state
passing over a finite-map filesystem (`FS`); fallible operations return
`Option`/`Except`.  Pure third-party library calls (base64 decoding, gzip
inflation, SHA-256 hashing) are passed in as explicit function parameters,
since only their results — never their internals — influence the control
flow being verified.  URLs are modelled by the parsed form `reqwest::Url`
exposes to this code: the ordered list of path segments.
-/

namespace OsrsArchive

/-- A byte string, each element a byte value. -/
abbrev Bytes := List Nat

/-- The filesystem: a finite map from absolute path to file contents,
represented as an association list where the first matching entry wins. -/
abbrev FS := List (String × Bytes)

def fsLookup : FS → String → Option Bytes
  | [], _ => none
  | (q, d) :: rest, p => if p = q then some d else fsLookup rest p

/-- Drop every entry at path `p`. -/
def fsErase : FS → String → FS
  | [], _ => []
  | (q, d) :: rest, p => if q = p then fsErase rest p else (q, d) :: fsErase rest p

/-- Writing replaces any existing file at the path. -/
def fsWrite (fs : FS) (p : String) (d : Bytes) : FS :=
  (p, d) :: fsErase fs p

/-- `fs::remove_file`. -/
def fsRemove (fs : FS) (p : String) : FS :=
  fsErase fs p

/-- Error taxonomy of the downloader (`bail!` / `?` sites in downloader.rs,
classified per the crate-level taxonomy). -/
inductive DlError where
  /-- base64 digest decode failure or hex form shorter than 2 chars. -/
  | digestDecodeError (digest : String)
  /-- request send / body read failure. -/
  | networkError (url : String)
  /-- non-success HTTP status. -/
  | httpStatusError (code : Nat) (url : String)
  /-- piece shorter than the 6-byte header, or gzip inflation failure. -/
  | decompressionError (url : String)
  /-- SHA-256 of decompressed bytes differs from the address digest. -/
  | checksumMismatch (fileName expected got : String)
  /-- file open/read failure. -/
  | ioError (path : String)
  /-- `read_exact` hit end of stream before filling the buffer. -/
  | truncatedStreamError (size : Nat) (fileName : String)
  /-- a deletion failed during cleanup. -/
  | cleanupError (path : String)
  /-- piece URL without a filename segment or without the expected suffix. -/
  | invalidPieceUrl
deriving Repr, DecidableEq

/-- `MetafileEntry` from config.rs: one output-file descriptor. -/
structure MetafileEntry where
  attr : Nat
  name : String
  size : Nat
deriving Repr, DecidableEq

/-- `MetafilePadding` from config.rs. -/
structure MetafilePadding where
  offset : Nat
  size : Nat
deriving Repr, DecidableEq

/-- `Metafile` from config.rs: the manifest. -/
structure Metafile where
  id : String
  files : List MetafileEntry
  padding : List MetafilePadding
  pieces : List String
  pieces_algorithm : String
  hash_padding : Bool
  version : String
  scan_time : Nat
  algorithm : String
deriving Repr, DecidableEq

/-! ## PieceLocator: `generate_piece_urls` -/

/-- Lowercase hex digit for a value below 16. -/
def hexDigitChar (n : Nat) : Char :=
  if n < 10 then Char.ofNat (48 + n) else Char.ofNat (87 + n)

def hexEncodeByte (b : Nat) : List Char :=
  [hexDigitChar (b / 16 % 16), hexDigitChar (b % 16)]

/-- `hex::encode`: lowercase hex form of a byte string. -/
def hexEncode (bs : Bytes) : String :=
  String.mk ((bs.map hexEncodeByte).flatten)

/-- A parsed piece URL, as `reqwest::Url` presents it back to the code:
its ordered path segments (host and scheme play no role downstream). -/
structure Url where
  pathSegments : List String
deriving Repr, DecidableEq

/-- `generate_piece_urls` body for one digest: base64-decode the manifest
digest, hex-encode it, and build
`{base}/{repo}/pieces/{hex[0..2]}/{hex}.solidpiece`.  The base64 decoder is
a parameter (the `base64` crate); `digest_hex_str.get(0..2)` is `none`
exactly when the hex form is shorter than 2 characters. -/
def generatePieceUrl (b64decode : String → Option Bytes) (repo digest : String) :
    Except DlError Url :=
  match b64decode digest with
  | none => .error (.digestDecodeError digest)
  | some digestBytes =>
    let digestHexStr := hexEncode digestBytes
    if digestHexStr.data.length < 2 then
      .error (.digestDecodeError digest)
    else
      .ok ⟨["direct6", repo, "pieces", ⟨digestHexStr.data.take 2⟩,
            digestHexStr ++ ".solidpiece"]⟩

/-- `generate_piece_urls`: map over the manifest's digest list in order. -/
def generatePieceUrls (b64decode : String → Option Bytes) (repo : String)
    (pieces : List String) : Except DlError (List Url) :=
  pieces.mapM (generatePieceUrl b64decode repo)

/-- `extract_filename_from_url`: last path segment, `"unknown"` as fallback. -/
def extractFilenameFromUrl (pieceUrl : Url) : String :=
  match pieceUrl.pathSegments.getLast? with
  | some s => s
  | none => "unknown"

/-! ## ConcurrentFetcher: per-piece download, decompress, write, verify -/

/-- `str::strip_suffix`, computed on the character list so that concrete
instances reduce by kernel evaluation. -/
def stripSuffixOpt (s suffix : String) : Option String :=
  if suffix.data.length ≤ s.data.length
      ∧ s.data.drop (s.data.length - suffix.data.length) = suffix.data then
    some ⟨s.data.take (s.data.length - suffix.data.length)⟩
  else none

/-- `decompress_piece_data`: requires ≥ 6 bytes, strips the 6-byte header,
inflates the rest with the (parameterised) gzip decoder. -/
def decompressPieceData (inflate : Bytes → Option Bytes) (bytes : Bytes) (pieceUrl : Url) :
    Except DlError Bytes :=
  if bytes.length < 6 then
    .error (.decompressionError (extractFilenameFromUrl pieceUrl))
  else
    match inflate (bytes.drop 6) with
    | none => .error (.decompressionError (extractFilenameFromUrl pieceUrl))
    | some decompressedBytes => .ok decompressedBytes

/-- `write_piece_to_file`: remove any existing file, then create and write —
i.e. replace the contents at `output_dir/file_name`. -/
def writePieceToFile (outputDir : String) (fs : FS) (data : Bytes) (fileName : String) : FS :=
  fsWrite fs (outputDir ++ "/" ++ fileName) data

/-- `verify_piece_checksum`: SHA-256 (parameterised, producing the `{:x}`
lowercase-hex digest string) of the data must equal the piece URL's last
path segment with `.solidpiece` stripped. -/
def verifyPieceChecksum (sha256hex : Bytes → String) (data : Bytes)
    (fileName : String) (pieceUrl : Url) : Option DlError :=
  let checksum := sha256hex data
  match pieceUrl.pathSegments.getLast? with
  | none => some .invalidPieceUrl
  | some seg =>
    match stripSuffixOpt seg ".solidpiece" with
    | none => some .invalidPieceUrl
    | some expectedDigest =>
      if checksum = expectedDigest then none
      else some (.checksumMismatch fileName expectedDigest checksum)

/-- The HTTP layer, parameterised: `none` models a network failure
(send or body read), `some` carries the status code and body. -/
structure HttpResponse where
  status : Nat
  body : Bytes

/-- `StatusCode::is_success`: 2xx. -/
def isSuccessStatus (code : Nat) : Bool :=
  200 ≤ code && code < 300

/-- `download_and_process_single_piece`: fetch, check status, decompress,
write the piece file, then verify the checksum — in that order.  The
filesystem state is returned alongside the outcome (`none` = success),
since a failure does not roll back writes already made. -/
def downloadAndProcessSinglePiece (http : Url → Option HttpResponse)
    (inflate : Bytes → Option Bytes) (sha256hex : Bytes → String)
    (outputDir : String) (fs : FS) (pieceUrl : Url) : FS × Option DlError :=
  let fileName := extractFilenameFromUrl pieceUrl
  match http pieceUrl with
  | none => (fs, some (.networkError fileName))
  | some response =>
    if ¬ isSuccessStatus response.status then
      (fs, some (.httpStatusError response.status fileName))
    else
      match decompressPieceData inflate response.body pieceUrl with
      | .error e => (fs, some e)
      | .ok decompressedBytes =>
        let fs1 := writePieceToFile outputDir fs decompressedBytes fileName
        match verifyPieceChecksum sha256hex decompressedBytes fileName pieceUrl with
        | some e => (fs1, some e)
        | none => (fs1, none)

/-- `download_and_process_pieces`: the code batches the URL list into chunks
of `MAX_CONCURRENT_DOWNLOADS` and runs each chunk under `try_join_all`,
which returns the first error.  Each task writes only its own digest-named
file, and no batch starts after a failed one, so the execution is modelled
as a left-to-right fail-fast traversal of the full URL list. -/
def downloadAndProcessPieces (http : Url → Option HttpResponse)
    (inflate : Bytes → Option Bytes) (sha256hex : Bytes → String)
    (outputDir : String) (fs : FS) : List Url → FS × Option DlError
  | [] => (fs, none)
  | pieceUrl :: rest =>
    match downloadAndProcessSinglePiece http inflate sha256hex outputDir fs pieceUrl with
    | (fs1, some e) => (fs1, some e)
    | (fs1, none) => downloadAndProcessPieces http inflate sha256hex outputDir fs1 rest

/-! ## Reassembler: `combine_piece_files` -/

/-- The local path of a piece file inside the output directory. -/
def piecePath (outputDir : String) (pieceUrl : Url) : String :=
  outputDir ++ "/" ++ extractFilenameFromUrl pieceUrl

/-- The loop of `combine_piece_files`: open each piece file in turn and
append its bytes to the combined file.  A missing/unreadable piece aborts
via `?`, leaving whatever has been appended so far on disk. -/
def combineLoop (fs : FS) (combinedPath : String) : List String → FS × Option DlError
  | [] => (fs, none)
  | p :: rest =>
    match fsLookup fs p with
    | none => (fs, some (.ioError p))
    | some bytes =>
      let current := (fsLookup fs combinedPath).getD []
      combineLoop (fsWrite fs combinedPath (current ++ bytes)) combinedPath rest

/-- `combine_piece_files`: remove any existing combined file, create it
empty, then append every piece file in piece-URL order.  Returns the
combined path on success. -/
def combinePieceFiles (outputDir : String) (fs : FS) (pieceUrls : List Url) :
    FS × Except DlError String :=
  let combinedPath := outputDir ++ "/combined_file"
  let fs1 := fsWrite (fsRemove fs combinedPath) combinedPath []
  let piecesPaths := pieceUrls.map (piecePath outputDir)
  match combineLoop fs1 combinedPath piecesPaths with
  | (fs2, none) => (fs2, .ok combinedPath)
  | (fs2, some e) => (fs2, .error e)

/-! ## FileSlicer: `extract_files_from_archive` -/

/-- The loop of `extract_files_from_archive`: the open source file is a
stream with a single cursor `pos`; each descriptor `read_exact`s its `size`
bytes from the cursor and writes them to `output_dir/name` (parent
directories are implied by the path string).  `read_exact` fails when fewer
bytes remain than requested; the failure aborts via `?` without writing
that descriptor's file. -/
def extractLoop (outputDir : String) (fs : FS) (stream : Bytes) (pos : Nat) :
    List MetafileEntry → FS × Option DlError
  | [] => (fs, none)
  | file :: rest =>
    if pos + file.size ≤ stream.length then
      let fileOutput := (stream.drop pos).take file.size
      let fs1 := fsWrite fs (outputDir ++ "/" ++ file.name) fileOutput
      extractLoop outputDir fs1 stream (pos + file.size) rest
    else
      (fs, some (.truncatedStreamError file.size file.name))

/-- `extract_files_from_archive`: open the combined file (its contents are
captured by the open read handle) and slice it by the manifest's ordered
file descriptors with a single cursor starting at 0. -/
def extractFilesFromArchive (outputDir : String) (fs : FS) (combinedPath : String)
    (fileList : List MetafileEntry) : FS × Option DlError :=
  match fsLookup fs combinedPath with
  | none => (fs, some (.ioError combinedPath))
  | some stream => extractLoop outputDir fs stream 0 fileList

/-! ## Lifecycle: `cleanup_temporary_files` -/

/-- Split a character list at every occurrence of `c` (the semantics of
`String.splitOn` with a one-character separator), structurally recursive so
concrete instances reduce by kernel evaluation. -/
def splitCharAux : List Char → Char → List Char → List (List Char)
  | [], _, cur => [cur.reverse]
  | ch :: rest, c, cur =>
    if ch = c then cur.reverse :: splitCharAux rest c []
    else splitCharAux rest c (ch :: cur)

def splitOnCharL (l : List Char) (c : Char) : List (List Char) :=
  splitCharAux l c []

/-- Whether `p` is a direct child of `outputDir` (what `read_dir` lists):
it extends `outputDir ++ "/"` and the remainder has no further separator. -/
def isDirectChildOf (outputDir p : String) : Bool :=
  (p.data.take (outputDir.data.length + 1) == (outputDir ++ "/").data)
    && ! (p.data.drop (outputDir.data.length + 1)).contains '/'

/-- The final path component. -/
def fileNameComponent (p : String) : String :=
  match (splitOnCharL p.data '/').getLast? with
  | some s => ⟨s⟩
  | none => ""

/-- `Path::extension`: the part of the final component after its last dot;
none when there is no dot, or when the only dot is the leading one. -/
def extensionOf (p : String) : Option String :=
  match splitOnCharL (fileNameComponent p).data '.' with
  | [] => none
  | [_] => none
  | [[], _] => none
  | parts => (parts.getLast?).map (fun cs => (⟨cs⟩ : String))

/-- The deletion loop over the `.solidpiece` entries of the output
directory.  `fs::remove_file(...)?` aborts the whole cleanup on the first
failing deletion; subsequent entries are not attempted.  Deletions that can
fail are modelled by the `failDelete` oracle. -/
def cleanupLoop (failDelete : String → Bool) (fs : FS) : List String → FS × Option DlError
  | [] => (fs, none)
  | p :: rest =>
    if failDelete p then (fs, some (.cleanupError p))
    else cleanupLoop failDelete (fsRemove fs p) rest

/-- `cleanup_temporary_files`: remove every `.solidpiece`-extension direct
child of the output directory, then the combined file if it exists. -/
def cleanupTemporaryFiles (failDelete : String → Bool) (outputDir : String)
    (fs : FS) (combinedPath : String) : FS × Option DlError :=
  let entries := (fs.map (·.1)).filter
    (fun p => isDirectChildOf outputDir p && extensionOf p == some "solidpiece")
  match cleanupLoop failDelete fs entries with
  | (fs1, some e) => (fs1, some e)
  | (fs1, none) =>
    if (fsLookup fs1 combinedPath).isSome then
      if failDelete combinedPath then (fs1, some (.cleanupError combinedPath))
      else (fsRemove fs1 combinedPath, none)
    else (fs1, none)

/-! ## `download_build`: the phase pipeline -/

/-- `download_build` from the point where the remote configuration has been
loaded (the metafile parameter is the result of `Config::load_all`; its
acquisition is network I/O outside the phases under verification).  Each
phase's error aborts the run via `?`; the filesystem state reached so far
is kept.  `none` as the second component means the run succeeded. -/
def downloadBuild (b64decode : String → Option Bytes) (http : Url → Option HttpResponse)
    (inflate : Bytes → Option Bytes) (sha256hex : Bytes → String)
    (failDelete : String → Bool) (repo outputDir : String)
    (metafile : Metafile) (fs : FS) : FS × Option DlError :=
  match generatePieceUrls b64decode repo metafile.pieces with
  | .error e => (fs, some e)
  | .ok pieceUrls =>
    match downloadAndProcessPieces http inflate sha256hex outputDir fs pieceUrls with
    | (fs1, some e) => (fs1, some e)
    | (fs1, none) =>
      match combinePieceFiles outputDir fs1 pieceUrls with
      | (fs2, .error e) => (fs2, some e)
      | (fs2, .ok combinedPath) =>
        match extractFilesFromArchive outputDir fs2 combinedPath metafile.files with
        | (fs3, some e) => (fs3, some e)
        | (fs3, none) =>
          cleanupTemporaryFiles failDelete outputDir fs3 combinedPath

/-- Phases 3–4 of the pipeline in isolation: reassembly from the piece
store followed by slicing (used to state idempotence of extraction). -/
def runExtraction (outputDir : String) (fs : FS) (pieceUrls : List Url)
    (fileList : List MetafileEntry) : FS × Option DlError :=
  match combinePieceFiles outputDir fs pieceUrls with
  | (fs1, .error e) => (fs1, some e)
  | (fs1, .ok combinedPath) => extractFilesFromArchive outputDir fs1 combinedPath fileList

/-! ## Manifest provider decoding: `Config::get_config_json` -/

/-- The settings `jsonwebtoken::Validation` carries into `decode`, as far
as signature and claim checking are concerned. -/
structure Validation where
  algorithm : String
  signatureValidationDisabled : Bool
  validate_exp : Bool
  validate_nbf : Bool
  validate_aud : Bool
deriving Repr, DecidableEq

/-- The validation settings `get_config_json` constructs before decoding the
fetched token, for any URL it is called on: `Validation::new(RS256)`
followed by `insecure_disable_signature_validation()` and disabling every
claim check.  `get_config_json` has no other input — no configuration
object, flag, or field reaches it. -/
def getConfigJsonValidation (url : String) : Validation :=
  { algorithm := "RS256"
  , signatureValidationDisabled := true
  , validate_exp := false
  , validate_nbf := false
  , validate_aud := false }

/-! ## Concrete instances used by witnesses and counterexamples -/

/-- Piece URL with hex digest `ff00`. -/
def cUrl1 : Url := ⟨["direct6", "osrs", "pieces", "ff", "ff00.solidpiece"]⟩

/-- Piece URL with hex digest `aa01` (natural sort order opposite to the
manifest order `[ff00, aa01]`). -/
def cUrl2 : Url := ⟨["direct6", "osrs", "pieces", "aa", "aa01.solidpiece"]⟩

def cB64 : String → Option Bytes := fun s =>
  if s = "/wA=" then some [255, 0]
  else if s = "qgE=" then some [170, 1]
  else none

def cHttp : Url → Option HttpResponse := fun u =>
  if u = cUrl1 then some ⟨200, [0, 0, 0, 0, 0, 0, 10]⟩
  else if u = cUrl2 then some ⟨200, [0, 0, 0, 0, 0, 0, 20]⟩
  else none

def cInflate : Bytes → Option Bytes := fun b =>
  if b = [10] then some [65, 65, 65]
  else if b = [20] then some [66, 66, 66]
  else none

/-- Hash oracle matching both concrete pieces. -/
def cSha : Bytes → String := fun b =>
  if b = [65, 65, 65] then "ff00"
  else if b = [66, 66, 66] then "aa01"
  else "0bad"

/-- Hash oracle that never matches an address digest. -/
def cShaBad : Bytes → String := fun _ => "beef"

def cNoFail : String → Bool := fun _ => false

def cMetafile : Metafile :=
  { id := "m", files := [⟨0, "a", 3⟩, ⟨0, "b", 2⟩], padding := []
  , pieces := ["/wA=", "qgE="], pieces_algorithm := "sha-256"
  , hash_padding := false, version := "1", scan_time := 0, algorithm := "sha-256" }


/-! ## Filesystem lemmas -/

theorem fsLookup_fsErase_ne (fs : FS) (p q : String) (h : ¬ q = p) :
    fsLookup (fsErase fs p) q = fsLookup fs q := by
  induction fs with
  | nil => rfl
  | cons e rest ih =>
    obtain ⟨a, d⟩ := e
    by_cases hap : a = p
    · simp only [fsErase, if_pos hap, fsLookup, ih]
      have : ¬ q = a := fun hqa => h (hqa.trans hap)
      simp [fsLookup, this]
    · simp [fsErase, hap, fsLookup, ih]

theorem fsLookup_fsErase_self (fs : FS) (p : String) :
    fsLookup (fsErase fs p) p = none := by
  induction fs with
  | nil => rfl
  | cons e rest ih =>
    obtain ⟨a, d⟩ := e
    by_cases hap : a = p
    · simp [fsErase, hap, ih]
    · have : ¬ p = a := fun hpa => hap hpa.symm
      simp [fsErase, hap, fsLookup, this, ih]

theorem fsErase_idem (fs : FS) (p : String) :
    fsErase (fsErase fs p) p = fsErase fs p := by
  induction fs with
  | nil => rfl
  | cons e rest ih =>
    obtain ⟨a, d⟩ := e
    by_cases hap : a = p
    · simp [fsErase, hap, ih]
    · simp [fsErase, hap, ih]

theorem fsLookup_fsWrite_self (fs : FS) (p : String) (d : Bytes) :
    fsLookup (fsWrite fs p d) p = some d := by
  simp [fsWrite, fsLookup]

theorem fsLookup_fsWrite_ne (fs : FS) (p q : String) (d : Bytes) (h : ¬ q = p) :
    fsLookup (fsWrite fs p d) q = fsLookup fs q := by
  simp [fsWrite, fsLookup, h, fsLookup_fsErase_ne fs p q h]

theorem fsWrite_fsWrite (fs : FS) (p : String) (d1 d2 : Bytes) :
    fsWrite (fsWrite fs p d1) p d2 = fsWrite fs p d2 := by
  simp [fsWrite, fsErase, fsErase_idem]

theorem fsWrite_fsErase (fs : FS) (p : String) (d : Bytes) :
    fsWrite (fsErase fs p) p d = fsWrite fs p d := by
  simp [fsWrite, fsErase_idem]

/-! ## Fetch-phase lemmas -/

theorem downloadAndProcessPieces_append (http : Url → Option HttpResponse)
    (inflate : Bytes → Option Bytes) (sha256hex : Bytes → String)
    (outputDir : String) (fs : FS) (pre post : List Url) :
    downloadAndProcessPieces http inflate sha256hex outputDir fs (pre ++ post) =
      match downloadAndProcessPieces http inflate sha256hex outputDir fs pre with
      | (fs1, some e) => (fs1, some e)
      | (fs1, none) => downloadAndProcessPieces http inflate sha256hex outputDir fs1 post := by
  induction pre generalizing fs with
  | nil => simp [downloadAndProcessPieces]
  | cons u rest ih =>
    simp only [List.cons_append, downloadAndProcessPieces]
    cases h : downloadAndProcessSinglePiece http inflate sha256hex outputDir fs u with
    | mk fs1 r =>
      cases r with
      | none => simpa using ih fs1
      | some e => simp

/-- A single piece task touches only its own digest-named file. -/
theorem downloadAndProcessSinglePiece_preserves (http : Url → Option HttpResponse)
    (inflate : Bytes → Option Bytes) (sha256hex : Bytes → String)
    (outputDir : String) (fs : FS) (u : Url) (p : String)
    (hp : ¬ p = piecePath outputDir u) :
    fsLookup (downloadAndProcessSinglePiece http inflate sha256hex outputDir fs u).1 p
      = fsLookup fs p := by
  unfold downloadAndProcessSinglePiece
  cases http u with
  | none => rfl
  | some response =>
    cases hst : isSuccessStatus response.status with
    | false => simp [hst]
    | true =>
      simp only [hst, Bool.not_true, Bool.false_eq_true, if_false]
      cases decompressPieceData inflate response.body u with
      | error e => simp
      | ok d =>
        simp only []
        cases verifyPieceChecksum sha256hex d (extractFilenameFromUrl u) u with
        | none =>
          simp only [writePieceToFile]
          exact fsLookup_fsWrite_ne _ _ _ _ hp
        | some e =>
          simp only [writePieceToFile]
          exact fsLookup_fsWrite_ne _ _ _ _ hp

/-- The fetch phase writes only the piece-store paths of its URL list. -/
theorem downloadAndProcessPieces_preserves (http : Url → Option HttpResponse)
    (inflate : Bytes → Option Bytes) (sha256hex : Bytes → String)
    (outputDir : String) (fs : FS) (urls : List Url) (p : String)
    (hp : ∀ u ∈ urls, ¬ p = piecePath outputDir u) :
    fsLookup (downloadAndProcessPieces http inflate sha256hex outputDir fs urls).1 p
      = fsLookup fs p := by
  induction urls generalizing fs with
  | nil => rfl
  | cons u rest ih =>
    simp only [downloadAndProcessPieces]
    cases h : downloadAndProcessSinglePiece http inflate sha256hex outputDir fs u with
    | mk fs1 r =>
      have h1 : fsLookup fs1 p = fsLookup fs p := by
        have := downloadAndProcessSinglePiece_preserves http inflate sha256hex outputDir fs u p
          (hp u (List.mem_cons_self u rest))
        rwa [h] at this
      cases r with
      | none =>
        simp only []
        rw [ih fs1 (fun v hv => hp v (List.mem_cons_of_mem u hv)), h1]
      | some e => simpa using h1

/-! ## Reassembly lemmas -/

/-- The combined-file path used by `combine_piece_files`. -/
def combinedPathOf (outputDir : String) : String :=
  outputDir ++ "/combined_file"

/-- Running the append loop from a combined file holding `acc`, over pieces
all present and located away from the combined path, appends their contents
in list order. -/
theorem combineLoop_ok (outputDir : String) (fs : FS) (urls : List Url)
    (store : Url → Bytes) (acc : Bytes)
    (hstore : ∀ u ∈ urls, fsLookup fs (piecePath outputDir u) = some (store u))
    (hne : ∀ u ∈ urls, ¬ piecePath outputDir u = combinedPathOf outputDir) :
    combineLoop (fsWrite fs (combinedPathOf outputDir) acc) (combinedPathOf outputDir)
        (urls.map (piecePath outputDir))
      = (fsWrite fs (combinedPathOf outputDir) (acc ++ (urls.map store).flatten), none) := by
  induction urls generalizing acc with
  | nil => simp [combineLoop]
  | cons u rest ih =>
    have hu : fsLookup (fsWrite fs (combinedPathOf outputDir) acc) (piecePath outputDir u)
        = some (store u) := by
      rw [fsLookup_fsWrite_ne _ _ _ _ (hne u (List.mem_cons_self u rest))]
      exact hstore u (List.mem_cons_self u rest)
    simp only [List.map_cons, combineLoop, hu]
    rw [fsLookup_fsWrite_self]
    simp only [Option.getD_some]
    rw [fsWrite_fsWrite]
    rw [ih (acc ++ store u) (fun v hv => hstore v (List.mem_cons_of_mem u hv))
      (fun v hv => hne v (List.mem_cons_of_mem u hv))]
    simp [List.append_assoc]

/-- `combine_piece_files` on a complete piece store: the staging artifact is
the concatenation, in URL-list order, of the pieces' stored bytes. -/
theorem combinePieceFiles_ok (outputDir : String) (fs : FS) (pieceUrls : List Url)
    (store : Url → Bytes)
    (hstore : ∀ u ∈ pieceUrls, fsLookup fs (piecePath outputDir u) = some (store u))
    (hne : ∀ u ∈ pieceUrls, ¬ piecePath outputDir u = combinedPathOf outputDir) :
    combinePieceFiles outputDir fs pieceUrls
      = (fsWrite fs (combinedPathOf outputDir) ((pieceUrls.map store).flatten),
         .ok (combinedPathOf outputDir)) := by
  unfold combinePieceFiles
  dsimp only
  have h1 : fsWrite (fsRemove fs (outputDir ++ "/combined_file")) (outputDir ++ "/combined_file") []
      = fsWrite fs (combinedPathOf outputDir) [] := fsWrite_fsErase fs _ []
  rw [h1]
  have h2 := combineLoop_ok outputDir fs pieceUrls store [] hstore hne
  rw [show (outputDir ++ "/combined_file") = combinedPathOf outputDir from rfl, h2]
  simp

/-! ## Slicing lemmas -/

/-- The ordered list of writes slicing performs: descriptor `i` receives the
`size_i` bytes of the stream starting at the cumulative offset. -/
def sliceWrites (outputDir : String) (stream : Bytes) (pos : Nat) :
    List MetafileEntry → List (String × Bytes)
  | [] => []
  | f :: rest =>
    (outputDir ++ "/" ++ f.name, (stream.drop pos).take f.size)
      :: sliceWrites outputDir stream (pos + f.size) rest

/-- Apply a list of writes in order. -/
def applyWrites (fs : FS) (ws : List (String × Bytes)) : FS :=
  ws.foldl (fun a w => fsWrite a w.1 w.2) fs

/-- Sum of the declared descriptor sizes. -/
def sumSizes (files : List MetafileEntry) : Nat :=
  (files.map (fun f => f.size)).sum

theorem extractLoop_success (outputDir : String) (fs : FS) (stream : Bytes) (pos : Nat)
    (files : List MetafileEntry) (h : pos + sumSizes files ≤ stream.length) :
    extractLoop outputDir fs stream pos files
      = (applyWrites fs (sliceWrites outputDir stream pos files), none) := by
  induction files generalizing fs pos with
  | nil => simp [extractLoop, sliceWrites, applyWrites]
  | cons f rest ih =>
    have hsz : pos + f.size ≤ stream.length := by
      have : pos + (f.size + sumSizes rest) ≤ stream.length := by
        simpa [sumSizes] using h
      omega
    simp only [extractLoop, if_pos hsz, sliceWrites, applyWrites, List.foldl_cons]
    exact ih _ (pos + f.size) (by simp [sumSizes] at h ⊢; omega)

theorem extractLoop_truncated (outputDir : String) (fs : FS) (stream : Bytes) (pos : Nat)
    (pre : List MetafileEntry) (f : MetafileEntry) (post : List MetafileEntry)
    (hpre : pos + sumSizes pre ≤ stream.length)
    (hf : stream.length < pos + sumSizes pre + f.size) :
    extractLoop outputDir fs stream pos (pre ++ f :: post)
      = (applyWrites fs (sliceWrites outputDir stream pos pre),
         some (.truncatedStreamError f.size f.name)) := by
  induction pre generalizing fs pos with
  | nil =>
    have : ¬ pos + f.size ≤ stream.length := by simp [sumSizes] at hpre hf; omega
    simp [extractLoop, this, sliceWrites, applyWrites]
  | cons g rest ih =>
    have hsz : pos + g.size ≤ stream.length := by
      simp [sumSizes] at hpre; omega
    simp only [List.cons_append, extractLoop, if_pos hsz, sliceWrites, applyWrites,
      List.foldl_cons]
    exact ih _ (pos + g.size) (by simp [sumSizes] at hpre ⊢; omega)
      (by simp [sumSizes] at hf ⊢; omega)

/-- The loop succeeds exactly when the remaining stream covers the remaining
descriptor sizes. -/
theorem extractLoop_none_iff (outputDir : String) (fs : FS) (stream : Bytes) (pos : Nat)
    (files : List MetafileEntry) (hpos : pos ≤ stream.length) :
    (extractLoop outputDir fs stream pos files).2 = none
      ↔ pos + sumSizes files ≤ stream.length := by
  induction files generalizing fs pos with
  | nil => simpa [extractLoop, sumSizes] using hpos
  | cons f rest ih =>
    by_cases hsz : pos + f.size ≤ stream.length
    · simp only [extractLoop, if_pos hsz]
      rw [ih _ _ hsz]
      simp [sumSizes]; omega
    · simp only [extractLoop, if_neg hsz]
      simp [sumSizes]
      omega

/-- C3: slicing consumes the staging stream with a single cursor starting
at offset 0 — the run is exactly the ordered write list in which
descriptor `i` receives the `size_i` bytes starting where descriptor `i-1`
ended, with no reordering, skipping or re-reading; and when fewer bytes
remain than a descriptor requests, that descriptor fails with
`TruncatedStreamError` (earlier descriptors' files written, later ones
not). -/
theorem extractFilesFromArchive_characterisation (outputDir : String) (fs : FS)
    (combinedPath : String) (fileList : List MetafileEntry) (stream : Bytes)
    (hcomb : fsLookup fs combinedPath = some stream) :
    (sumSizes fileList ≤ stream.length →
      extractFilesFromArchive outputDir fs combinedPath fileList
        = (applyWrites fs (sliceWrites outputDir stream 0 fileList), none))
    ∧ (∀ pre f post, fileList = pre ++ f :: post →
        sumSizes pre ≤ stream.length → stream.length < sumSizes pre + f.size →
        extractFilesFromArchive outputDir fs combinedPath fileList
          = (applyWrites fs (sliceWrites outputDir stream 0 pre),
             some (.truncatedStreamError f.size f.name))) := by
  constructor
  · intro h
    unfold extractFilesFromArchive
    rw [hcomb]
    exact extractLoop_success outputDir fs stream 0 fileList (by omega)
  · intro pre f post hsplit hpre hf
    unfold extractFilesFromArchive
    rw [hcomb, hsplit]
    exact extractLoop_truncated outputDir fs stream 0 pre f post (by omega) (by omega)

theorem applyWrites_cons (fs : FS) (w : String × Bytes) (ws : List (String × Bytes)) :
    applyWrites fs (w :: ws) = applyWrites (fsWrite fs w.1 w.2) ws := rfl

/-- Writes to paths other than `p` leave `p`'s contents unchanged. -/
theorem applyWrites_preserves (fs : FS) (ws : List (String × Bytes)) (p : String)
    (hp : ∀ w ∈ ws, ¬ p = w.1) :
    fsLookup (applyWrites fs ws) p = fsLookup fs p := by
  induction ws generalizing fs with
  | nil => rfl
  | cons w rest ih =>
    rw [applyWrites_cons]
    rw [ih (fsWrite fs w.1 w.2) (fun v hv => hp v (List.mem_cons_of_mem w hv))]
    exact fsLookup_fsWrite_ne _ _ _ _ (hp w (List.mem_cons_self w rest))

/-- The contents a write list leaves at a path it writes do not depend on
the starting filesystem. -/
theorem applyWrites_lookup_congr (fs1 fs2 : FS) (ws : List (String × Bytes)) (p : String)
    (hp : ∃ w ∈ ws, p = w.1) :
    fsLookup (applyWrites fs1 ws) p = fsLookup (applyWrites fs2 ws) p := by
  induction ws generalizing fs1 fs2 with
  | nil => obtain ⟨w, hw, _⟩ := hp; exact absurd hw (List.not_mem_nil w)
  | cons w rest ih =>
    rw [applyWrites_cons, applyWrites_cons]
    by_cases hrest : ∃ v ∈ rest, p = v.1
    · exact ih _ _ hrest
    · have hnp : ∀ v ∈ rest, ¬ p = v.1 := by
        intro v hv hvp
        exact hrest ⟨v, hv, hvp⟩
      have hpw : p = w.1 := by
        obtain ⟨v, hv, hvp⟩ := hp
        rcases List.mem_cons.mp hv with h | h
        · rw [hvp, h]
        · exact absurd hvp (hnp v h)
      rw [applyWrites_preserves _ _ _ hnp, applyWrites_preserves _ _ _ hnp, hpw,
        fsLookup_fsWrite_self, fsLookup_fsWrite_self]

/-- Every write slicing performs targets the output path of a descriptor. -/
theorem sliceWrites_mem_path (outputDir : String) (stream : Bytes) (pos : Nat)
    (files : List MetafileEntry) (w : String × Bytes) (hw : w ∈ sliceWrites outputDir stream pos files) :
    ∃ f ∈ files, w.1 = outputDir ++ "/" ++ f.name := by
  induction files generalizing pos with
  | nil => exact absurd hw (List.not_mem_nil w)
  | cons f rest ih =>
    simp only [sliceWrites] at hw
    rcases List.mem_cons.mp hw with h | h
    · exact ⟨f, List.mem_cons_self f rest, by rw [h]⟩
    · obtain ⟨g, hg, hgp⟩ := ih (pos + f.size) h
      exact ⟨g, List.mem_cons_of_mem f hg, hgp⟩

/-- Every descriptor's output path is written by slicing. -/
theorem sliceWrites_path_mem (outputDir : String) (stream : Bytes) (pos : Nat)
    (files : List MetafileEntry) (f : MetafileEntry) (hf : f ∈ files) :
    ∃ w ∈ sliceWrites outputDir stream pos files, outputDir ++ "/" ++ f.name = w.1 := by
  induction files generalizing pos with
  | nil => exact absurd hf (List.not_mem_nil f)
  | cons g rest ih =>
    rcases List.mem_cons.mp hf with h | h
    · exact ⟨_, List.mem_cons_self _ _, by rw [h]⟩
    · obtain ⟨w, hw, hwp⟩ := ih (pos + g.size) h
      exact ⟨w, List.mem_cons_of_mem _ hw, hwp⟩

/-- Slicing reads nothing past the cumulative descriptor total: the write
list over a stream equals the write list over its prefix of that length. -/
theorem sliceWrites_take (outputDir : String) (stream : Bytes) (pos n : Nat)
    (files : List MetafileEntry) (h : pos + sumSizes files ≤ n) :
    sliceWrites outputDir stream pos files
      = sliceWrites outputDir (stream.take n) pos files := by
  induction files generalizing pos with
  | nil => rfl
  | cons f rest ih =>
    have hb : ((stream.take n).drop pos).take f.size = (stream.drop pos).take f.size := by
      rw [List.drop_take]
      rw [List.take_take]
      have : min f.size (n - pos) = f.size := by
        simp [sumSizes] at h; omega
      rw [this]
    simp only [sliceWrites, hb]
    rw [ih (pos + f.size) (by simp [sumSizes] at h ⊢; omega)]

/-! ## Cleanup lemmas -/

theorem cleanupLoop_preserves (failDelete : String → Bool) (fs : FS) (ps : List String)
    (q : String) (hq : ∀ p ∈ ps, ¬ q = p) :
    fsLookup (cleanupLoop failDelete fs ps).1 q = fsLookup fs q := by
  induction ps generalizing fs with
  | nil => rfl
  | cons p rest ih =>
    simp only [cleanupLoop]
    cases hf : failDelete p with
    | true => simp
    | false =>
      simp only [Bool.false_eq_true, if_false]
      rw [ih (fsRemove fs p) (fun v hv => hq v (List.mem_cons_of_mem p hv))]
      exact fsLookup_fsErase_ne fs p q (hq p (List.mem_cons_self p rest))

/-- Cleanup touches only `.solidpiece`-extension entries and the combined
file; every other path keeps its contents, whatever the outcome. -/
theorem cleanupTemporaryFiles_preserves (failDelete : String → Bool) (outputDir : String)
    (fs : FS) (combinedPath : String) (q : String)
    (hq : ¬ extensionOf q = some "solidpiece") (hqc : ¬ q = combinedPath) :
    fsLookup (cleanupTemporaryFiles failDelete outputDir fs combinedPath).1 q
      = fsLookup fs q := by
  unfold cleanupTemporaryFiles
  dsimp only
  have hent : ∀ p ∈ (fs.map (fun e => e.1)).filter
      (fun p => isDirectChildOf outputDir p && extensionOf p == some "solidpiece"),
      ¬ q = p := by
    intro p hp hqp
    have hcond := (List.mem_filter.mp hp).2
    have hext : extensionOf p = some "solidpiece" := by
      have h2 := (Bool.and_eq_true _ _ |>.mp hcond).2
      simpa using h2
    rw [← hqp] at hext
    exact hq hext
  cases hcl : cleanupLoop failDelete fs ((fs.map (fun e => e.1)).filter
      (fun p => isDirectChildOf outputDir p && extensionOf p == some "solidpiece")) with
  | mk fs1 r =>
    have hpres : fsLookup fs1 q = fsLookup fs q := by
      have := cleanupLoop_preserves failDelete fs _ q hent
      rwa [hcl] at this
    cases r with
    | some e => simpa using hpres
    | none =>
      simp only []
      by_cases hex : (fsLookup fs1 combinedPath).isSome
      · simp only [hex, if_pos]
        cases hfd : failDelete combinedPath with
        | true => simpa using hpres
        | false =>
          simp only [Bool.false_eq_true, if_false]
          rw [show fsRemove fs1 combinedPath = fsErase fs1 combinedPath from rfl]
          rw [fsLookup_fsErase_ne fs1 combinedPath q hqc]
          exact hpres
      · simpa [hex] using hpres

/-! ## Claim theorems -/

/-- C7 counterexample: at the concrete versions-catalog URL the code
actually fetches, the validation settings `get_config_json` constructs have
signature validation disabled, and they are identical for every other URL —
the skip is hardcoded, not controlled by any configuration flag. -/
theorem signature_validation_hardcoded_cex :
    (getConfigJsonValidation "https://jagex.akamaized.net/direct6/osrs/osrs.json").signatureValidationDisabled = true
    ∧ getConfigJsonValidation "https://jagex.akamaized.net/direct6/osrs/osrs.json"
        = getConfigJsonValidation "https://jagex.akamaized.net/direct6/osrs/alias.json" :=
  ⟨rfl, rfl⟩

/-- C7 (amended): signature verification of the manifest provider's
envelope is unconditionally disabled by the hardcoded
`insecure_disable_signature_validation` call in `get_config_json`; no
configuration flag reaches the decision, so the validation settings are the
same for every input. -/
theorem signature_validation_unconditionally_disabled :
    ∀ url1 url2 : String,
      (getConfigJsonValidation url1).signatureValidationDisabled = true
      ∧ getConfigJsonValidation url1 = getConfigJsonValidation url2 :=
  fun _ _ => ⟨rfl, rfl⟩

/-- C4 counterexample: a piece whose decompressed bytes hash to `beef`
instead of its address digest `ff00` fails checksum verification, yet its
decompressed bytes are on disk in the piece store afterwards. -/
theorem piece_file_remains_after_checksum_failure_cex :
    (downloadAndProcessSinglePiece cHttp cInflate cShaBad "out" [] cUrl1).2
        = some (.checksumMismatch "ff00.solidpiece" "ff00" "beef")
    ∧ fsLookup (downloadAndProcessSinglePiece cHttp cInflate cShaBad "out" [] cUrl1).1
        "out/ff00.solidpiece" = some [65, 65, 65] := by
  decide

/-- C4 (amended): the decompressed bytes are written to the piece store as
soon as decompression succeeds — before checksum verification — so the
piece file is present afterwards whether or not verification succeeds. -/
theorem piece_written_before_verification (http : Url → Option HttpResponse)
    (inflate : Bytes → Option Bytes) (sha256hex : Bytes → String)
    (outputDir : String) (fs : FS) (u : Url) (response : HttpResponse) (d : Bytes)
    (hhttp : http u = some response)
    (hst : isSuccessStatus response.status = true)
    (hdec : decompressPieceData inflate response.body u = .ok d) :
    fsLookup (downloadAndProcessSinglePiece http inflate sha256hex outputDir fs u).1
        (piecePath outputDir u) = some d := by
  unfold downloadAndProcessSinglePiece
  rw [hhttp]
  simp only [hst, Bool.not_true, Bool.false_eq_true, if_false, not_true]
  rw [hdec]
  cases hv : verifyPieceChecksum sha256hex d (extractFilenameFromUrl u) u with
  | none =>
    simp only [hv, writePieceToFile]
    exact fsLookup_fsWrite_self _ _ _
  | some e =>
    simp only [hv, writePieceToFile]
    exact fsLookup_fsWrite_self _ _ _

/-- Witness for the amended C4 theorem at the concrete mismatching piece. -/
theorem piece_written_before_verification_witness :
    fsLookup (downloadAndProcessSinglePiece cHttp cInflate cShaBad "out" [] cUrl1).1
        (piecePath "out" cUrl1) = some [65, 65, 65] :=
  piece_written_before_verification cHttp cInflate cShaBad "out" [] cUrl1
    ⟨200, [0, 0, 0, 0, 0, 0, 10]⟩ [65, 65, 65] rfl rfl rfl

/-- Witness for C3 at the spec's own example: descriptors `[(a,3),(b,2)]`
over staging bytes `XYZPQ` yield `a = "XYZ"` and `b = "PQ"`. -/
theorem extractFilesFromArchive_characterisation_witness :
    extractFilesFromArchive "out" [("out/combined_file", [88, 89, 90, 80, 81])]
        "out/combined_file" [⟨0, "a", 3⟩, ⟨0, "b", 2⟩]
      = (applyWrites [("out/combined_file", [88, 89, 90, 80, 81])]
          (sliceWrites "out" [88, 89, 90, 80, 81] 0 [⟨0, "a", 3⟩, ⟨0, "b", 2⟩]), none)
    ∧ fsLookup (extractFilesFromArchive "out" [("out/combined_file", [88, 89, 90, 80, 81])]
        "out/combined_file" [⟨0, "a", 3⟩, ⟨0, "b", 2⟩]).1 "out/a" = some [88, 89, 90]
    ∧ fsLookup (extractFilesFromArchive "out" [("out/combined_file", [88, 89, 90, 80, 81])]
        "out/combined_file" [⟨0, "a", 3⟩, ⟨0, "b", 2⟩]).1 "out/b" = some [80, 81] := by
  have h := (extractFilesFromArchive_characterisation "out"
    [("out/combined_file", [88, 89, 90, 80, 81])] "out/combined_file"
    [⟨0, "a", 3⟩, ⟨0, "b", 2⟩] [88, 89, 90, 80, 81] (by decide)).1 (by decide)
  exact ⟨h, by decide, by decide⟩

/-- Concrete metafile equal to `cMetafile` except for its padding list. -/
def cMetafilePadded : Metafile :=
  { cMetafile with padding := [⟨0, 7⟩] }

/-- C8: the run does not consult the manifest's padding descriptors — two
manifests identical except in their padding list drive the whole pipeline,
and in particular slicing, to identical filesystem outcomes. -/
theorem padding_descriptors_not_consulted (b64decode : String → Option Bytes)
    (http : Url → Option HttpResponse) (inflate : Bytes → Option Bytes)
    (sha256hex : Bytes → String) (failDelete : String → Bool)
    (repo outputDir : String) (mf1 mf2 : Metafile) (fs : FS)
    (hid : mf1.id = mf2.id) (hfiles : mf1.files = mf2.files)
    (hpieces : mf1.pieces = mf2.pieces)
    (hpalg : mf1.pieces_algorithm = mf2.pieces_algorithm)
    (hhp : mf1.hash_padding = mf2.hash_padding)
    (hver : mf1.version = mf2.version) (hscan : mf1.scan_time = mf2.scan_time)
    (halg : mf1.algorithm = mf2.algorithm) :
    downloadBuild b64decode http inflate sha256hex failDelete repo outputDir mf1 fs
      = downloadBuild b64decode http inflate sha256hex failDelete repo outputDir mf2 fs := by
  unfold downloadBuild
  rw [hfiles, hpieces]

/-- Witness for C8: `cMetafile` and `cMetafilePadded` differ exactly in
their padding lists yet produce the same run outcome. -/
theorem padding_descriptors_not_consulted_witness :
    downloadBuild cB64 cHttp cInflate cSha cNoFail "osrs" "out" cMetafile []
        = downloadBuild cB64 cHttp cInflate cSha cNoFail "osrs" "out" cMetafilePadded []
    ∧ ¬ cMetafile.padding = cMetafilePadded.padding :=
  ⟨padding_descriptors_not_consulted cB64 cHttp cInflate cSha cNoFail "osrs" "out"
      cMetafile cMetafilePadded [] rfl rfl rfl rfl rfl rfl rfl rfl,
   by decide⟩

/-- C10: when the staging stream is strictly longer than the sum of the
descriptor sizes, slicing succeeds, and its writes are identical to slicing
the stream truncated at that sum — the surplus trailing bytes reach no
output file and no length check rejects them. -/
theorem surplus_stream_silently_ignored (outputDir : String) (fs : FS)
    (combinedPath : String) (fileList : List MetafileEntry) (stream : Bytes)
    (hcomb : fsLookup fs combinedPath = some stream)
    (hlt : sumSizes fileList < stream.length) :
    extractFilesFromArchive outputDir fs combinedPath fileList
        = (applyWrites fs (sliceWrites outputDir stream 0 fileList), none)
    ∧ sliceWrites outputDir stream 0 fileList
        = sliceWrites outputDir (stream.take (sumSizes fileList)) 0 fileList := by
  constructor
  · unfold extractFilesFromArchive
    rw [hcomb]
    exact extractLoop_success _ _ _ _ _ (by omega)
  · exact sliceWrites_take _ _ _ _ _ (by omega)

/-- Witness for C10: descriptors totalling 5 bytes over a 6-byte stream
succeed and ignore the trailing byte. -/
theorem surplus_stream_silently_ignored_witness :
    extractFilesFromArchive "out" [("out/combined_file", [65, 65, 65, 66, 66, 66])]
        "out/combined_file" cMetafile.files
      = (applyWrites [("out/combined_file", [65, 65, 65, 66, 66, 66])]
          (sliceWrites "out" [65, 65, 65, 66, 66, 66] 0 cMetafile.files), none)
    ∧ sliceWrites "out" [65, 65, 65, 66, 66, 66] 0 cMetafile.files
      = sliceWrites "out" ([65, 65, 65, 66, 66, 66].take (sumSizes cMetafile.files)) 0
          cMetafile.files :=
  surplus_stream_silently_ignored "out" [("out/combined_file", [65, 65, 65, 66, 66, 66])]
    "out/combined_file" cMetafile.files [65, 65, 65, 66, 66, 66] (by decide) (by decide)

/-- Auxiliary: a successful `List.mapM.loop` in `Except` produces one output
per input (plus the accumulator). -/
theorem mapM_loop_length (f : String → Except DlError Url) (l : List String)
    (acc : List Url) (urls : List Url)
    (h : List.mapM.loop f l acc = .ok urls) : urls.length = l.length + acc.length := by
  induction l generalizing acc with
  | nil =>
    simp only [List.mapM.loop] at h
    cases h
    simp
  | cons a rest ih =>
    simp only [List.mapM.loop] at h
    cases hf : f a with
    | error e => rw [hf] at h; exact absurd h (by simp [Bind.bind, Except.bind])
    | ok u =>
      rw [hf] at h
      simp only [Bind.bind, Except.bind] at h
      have := ih (u :: acc) h
      simp only [List.length_cons] at this
      simp only [List.length_cons]
      omega

/-- A successful URL generation yields exactly one URL per manifest digest. -/
theorem generatePieceUrls_length (b64decode : String → Option Bytes) (repo : String)
    (pieces : List String) (pieceUrls : List Url)
    (h : generatePieceUrls b64decode repo pieces = .ok pieceUrls) :
    pieceUrls.length = pieces.length := by
  have := mapM_loop_length (generatePieceUrl b64decode repo) pieces [] pieceUrls h
  simpa using this

/-- C2: the staging artifact equals the byte-exact concatenation of every
piece's bytes in the exact order of the URL list generated from the
manifest's digest list (one URL per digest, in manifest order) — the
digests' natural sort order plays no role. -/
theorem staging_is_ordered_concatenation (b64decode : String → Option Bytes)
    (repo : String) (pieces : List String) (pieceUrls : List Url)
    (outputDir : String) (fs : FS) (store : Url → Bytes)
    (hgen : generatePieceUrls b64decode repo pieces = .ok pieceUrls)
    (hstore : ∀ u ∈ pieceUrls, fsLookup fs (piecePath outputDir u) = some (store u))
    (hne : ∀ u ∈ pieceUrls, ¬ piecePath outputDir u = combinedPathOf outputDir) :
    pieceUrls.length = pieces.length
    ∧ combinePieceFiles outputDir fs pieceUrls
        = (fsWrite fs (combinedPathOf outputDir) ((pieceUrls.map store).flatten),
           .ok (combinedPathOf outputDir))
    ∧ fsLookup (combinePieceFiles outputDir fs pieceUrls).1 (combinedPathOf outputDir)
        = some ((pieceUrls.map store).flatten) := by
  have h := combinePieceFiles_ok outputDir fs pieceUrls store hstore hne
  refine ⟨generatePieceUrls_length b64decode repo pieces pieceUrls hgen, h, ?_⟩
  rw [h]
  exact fsLookup_fsWrite_self _ _ _

/-- Piece store for the two concrete pieces: `ff00 ↦ AAA`, `aa01 ↦ BBB`. -/
def cStore : Url → Bytes := fun u =>
  if u = cUrl1 then [65, 65, 65] else [66, 66, 66]

/-- Witness for C2: manifest digest order is `ff00` then `aa01` (the
opposite of their natural sort order) and the staging artifact is
`AAА`-then-`BBB`. -/
theorem staging_is_ordered_concatenation_witness :
    ([cUrl1, cUrl2].length = cMetafile.pieces.length
      ∧ combinePieceFiles "out"
          [("out/ff00.solidpiece", [65, 65, 65]), ("out/aa01.solidpiece", [66, 66, 66])]
          [cUrl1, cUrl2]
        = (fsWrite [("out/ff00.solidpiece", [65, 65, 65]), ("out/aa01.solidpiece", [66, 66, 66])]
            (combinedPathOf "out") (([cUrl1, cUrl2].map cStore).flatten),
           .ok (combinedPathOf "out"))
      ∧ fsLookup (combinePieceFiles "out"
          [("out/ff00.solidpiece", [65, 65, 65]), ("out/aa01.solidpiece", [66, 66, 66])]
          [cUrl1, cUrl2]).1 (combinedPathOf "out")
        = some (([cUrl1, cUrl2].map cStore).flatten))
    ∧ ([cUrl1, cUrl2].map cStore).flatten = [65, 65, 65, 66, 66, 66] :=
  ⟨staging_is_ordered_concatenation cB64 "osrs" cMetafile.pieces [cUrl1, cUrl2] "out"
      [("out/ff00.solidpiece", [65, 65, 65]), ("out/aa01.solidpiece", [66, 66, 66])] cStore
      rfl (by decide) (by decide),
   by decide⟩

/-- The append loop of `combine_piece_files` decomposes over list append. -/
theorem combineLoop_append (fs : FS) (cp : String) (l1 l2 : List String) :
    combineLoop fs cp (l1 ++ l2)
      = match combineLoop fs cp l1 with
        | (fs1, some e) => (fs1, some e)
        | (fs1, none) => combineLoop fs1 cp l2 := by
  induction l1 generalizing fs with
  | nil => simp [combineLoop]
  | cons p rest ih =>
    simp only [List.cons_append, combineLoop]
    cases fsLookup fs p with
    | none => simp
    | some bytes => exact ih _

/-- C5 counterexample: with piece `ff00` on disk and piece `aa01` missing,
reassembly fails with `IoError` — but a partial staging artifact holding
`ff00`'s bytes has been emitted and remains on disk. -/
theorem reassembly_leaves_incomplete_artifact_cex :
    (combinePieceFiles "out" [("out/ff00.solidpiece", [65, 65, 65])] [cUrl1, cUrl2]).2
        = .error (.ioError "out/aa01.solidpiece")
    ∧ fsLookup (combinePieceFiles "out" [("out/ff00.solidpiece", [65, 65, 65])]
        [cUrl1, cUrl2]).1 "out/combined_file" = some [65, 65, 65] := by
  constructor
  · rfl
  · rfl

/-- C5 (amended): a missing piece file makes reassembly fail with `IoError`
naming that piece, but the combined staging file already holds the
concatenation of every piece read before the failure — a partial staging
artifact is left on disk (it is deleted here only by a later successful
run's rebuild, never on this failure path). -/
theorem missing_piece_fails_with_incomplete_artifact (outputDir : String) (fs : FS)
    (store : Url → Bytes) (pre : List Url) (m : Url) (post : List Url)
    (hpre : ∀ u ∈ pre, fsLookup fs (piecePath outputDir u) = some (store u))
    (hprene : ∀ u ∈ pre, ¬ piecePath outputDir u = combinedPathOf outputDir)
    (hmiss : fsLookup fs (piecePath outputDir m) = none)
    (hmne : ¬ piecePath outputDir m = combinedPathOf outputDir) :
    combinePieceFiles outputDir fs (pre ++ m :: post)
      = (fsWrite fs (combinedPathOf outputDir) ((pre.map store).flatten),
         .error (.ioError (piecePath outputDir m))) := by
  unfold combinePieceFiles
  dsimp only
  rw [show fsWrite (fsRemove fs (outputDir ++ "/combined_file"))
        (outputDir ++ "/combined_file") []
      = fsWrite fs (combinedPathOf outputDir) [] from fsWrite_fsErase fs _ []]
  rw [List.map_append, List.map_cons]
  rw [combineLoop_append]
  have hloop := combineLoop_ok outputDir fs pre store [] hpre hprene
  rw [show (outputDir ++ "/combined_file") = combinedPathOf outputDir from rfl, hloop]
  simp only [List.nil_append]
  have hm : fsLookup (fsWrite fs (combinedPathOf outputDir) ((pre.map store).flatten))
      (piecePath outputDir m) = none := by
    rw [fsLookup_fsWrite_ne _ _ _ _ hmne]
    exact hmiss
  simp only [combineLoop, hm]

/-- Witness for the amended C5 theorem at the concrete two-piece store with
the second piece missing. -/
theorem missing_piece_fails_with_incomplete_artifact_witness :
    combinePieceFiles "out" [("out/ff00.solidpiece", [65, 65, 65])] ([cUrl1] ++ cUrl2 :: [])
      = (fsWrite [("out/ff00.solidpiece", [65, 65, 65])] (combinedPathOf "out")
          (([cUrl1].map cStore).flatten),
         .error (.ioError (piecePath "out" cUrl2))) :=
  missing_piece_fails_with_incomplete_artifact "out" [("out/ff00.solidpiece", [65, 65, 65])]
    cStore [cUrl1] cUrl2 [] (by decide) (by decide) (by decide) (by decide)

/-- C1: when a piece's hash of its decompressed bytes differs from the hex
digest embedded in its own retrieval address (and the pieces before it in
the batch order processed fine), the run fails with the checksum-mismatch
error and no path outside the piece store — in particular no output file —
is written by the run. -/
theorem checksum_mismatch_is_fatal_no_output (b64decode : String → Option Bytes)
    (http : Url → Option HttpResponse) (inflate : Bytes → Option Bytes)
    (sha256hex : Bytes → String) (failDelete : String → Bool)
    (repo outputDir : String) (metafile : Metafile) (fs fs1 : FS)
    (pieceUrls pre post : List Url) (u : Url) (response : HttpResponse)
    (d : Bytes) (seg exp : String)
    (hgen : generatePieceUrls b64decode repo metafile.pieces = .ok pieceUrls)
    (hsplit : pieceUrls = pre ++ u :: post)
    (hpre : downloadAndProcessPieces http inflate sha256hex outputDir fs pre = (fs1, none))
    (hhttp : http u = some response)
    (hst : isSuccessStatus response.status = true)
    (hdec : decompressPieceData inflate response.body u = .ok d)
    (hseg : u.pathSegments.getLast? = some seg)
    (hexp : stripSuffixOpt seg ".solidpiece" = some exp)
    (hne : ¬ sha256hex d = exp) :
    (downloadBuild b64decode http inflate sha256hex failDelete repo outputDir metafile fs).2
        = some (.checksumMismatch seg exp (sha256hex d))
    ∧ ∀ p, (∀ v ∈ pieceUrls, ¬ p = piecePath outputDir v) →
        fsLookup (downloadBuild b64decode http inflate sha256hex failDelete repo outputDir
            metafile fs).1 p
          = fsLookup fs p := by
  have hfile : extractFilenameFromUrl u = seg := by
    unfold extractFilenameFromUrl
    rw [hseg]
  have hver : verifyPieceChecksum sha256hex d (extractFilenameFromUrl u) u
      = some (.checksumMismatch seg exp (sha256hex d)) := by
    unfold verifyPieceChecksum
    rw [hseg]
    dsimp only
    rw [hexp]
    dsimp only
    rw [if_neg hne, hfile]
  have hsingle : downloadAndProcessSinglePiece http inflate sha256hex outputDir fs1 u
      = (fsWrite fs1 (piecePath outputDir u) d,
         some (.checksumMismatch seg exp (sha256hex d))) := by
    unfold downloadAndProcessSinglePiece
    rw [hhttp]
    simp only [hst, Bool.not_true, Bool.false_eq_true, if_false, not_true]
    rw [hdec]
    dsimp only
    rw [hver]
    rfl
  have hrun : downloadBuild b64decode http inflate sha256hex failDelete repo outputDir
        metafile fs
      = (fsWrite fs1 (piecePath outputDir u) d,
         some (.checksumMismatch seg exp (sha256hex d))) := by
    unfold downloadBuild
    rw [hgen]
    dsimp only
    rw [hsplit, downloadAndProcessPieces_append, hpre]
    dsimp only
    simp only [downloadAndProcessPieces]
    rw [hsingle]
  constructor
  · rw [hrun]
  · intro p hp
    rw [hrun]
    dsimp only
    rw [fsLookup_fsWrite_ne _ _ _ _
      (hp u (by rw [hsplit]; exact List.mem_append_right _ (List.mem_cons_self _ _)))]
    have hpres := downloadAndProcessPieces_preserves http inflate sha256hex outputDir fs pre p
      (fun v hv => hp v (by rw [hsplit]; exact List.mem_append_left _ hv))
    rwa [hpre] at hpres

/-- Witness for C1: the concrete run whose only processed piece hashes to
`beef` instead of `ff00` fails with the mismatch and leaves the output path
`out/a` unwritten. -/
theorem checksum_mismatch_is_fatal_no_output_witness :
    (downloadBuild cB64 cHttp cInflate cShaBad cNoFail "osrs" "out" cMetafile []).2
        = some (.checksumMismatch "ff00.solidpiece" "ff00" "beef")
    ∧ fsLookup (downloadBuild cB64 cHttp cInflate cShaBad cNoFail "osrs" "out" cMetafile []).1
        "out/a" = none := by
  have h := checksum_mismatch_is_fatal_no_output cB64 cHttp cInflate cShaBad cNoFail
    "osrs" "out" cMetafile [] [] [cUrl1, cUrl2] [] [cUrl2] cUrl1
    ⟨200, [0, 0, 0, 0, 0, 0, 10]⟩ [65, 65, 65] "ff00.solidpiece" "ff00"
    rfl rfl rfl rfl rfl rfl rfl (by decide) (by decide)
  refine ⟨h.1, ?_⟩
  have h2 := h.2 "out/a" (by decide)
  simpa using h2

/-- Deletion oracle failing exactly on the `aa01` piece file — the first
staging entry cleanup visits in the concrete run. -/
def cFailDeleteAA : String → Bool := fun p => p = "out/aa01.solidpiece"

/-- Piece-store state after the concrete two-piece fetch phase. -/
def cFs1 : FS := [("out/aa01.solidpiece", [66, 66, 66]), ("out/ff00.solidpiece", [65, 65, 65])]

/-- State after reassembly. -/
def cFs2 : FS := ("out/combined_file", [65, 65, 65, 66, 66, 66]) :: cFs1

/-- State after slicing: output files `a` and `b` written. -/
def cFs3 : FS := ("out/b", [66, 66]) :: ("out/a", [65, 65, 65]) :: cFs2

/-- C6 counterexample: in a run where every output file has been written
successfully and the first cleanup deletion fails, `download_build` returns
the `CleanupError` as a run failure (not success), and the remaining
staging items — the other piece file and the combined artifact — are left
in place, i.e. they were never attempted. -/
theorem cleanup_failure_fails_run_cex :
    (downloadBuild cB64 cHttp cInflate cSha cFailDeleteAA "osrs" "out" cMetafile []).2
        = some (.cleanupError "out/aa01.solidpiece")
    ∧ fsLookup (downloadBuild cB64 cHttp cInflate cSha cFailDeleteAA "osrs" "out"
        cMetafile []).1 "out/ff00.solidpiece" = some [65, 65, 65]
    ∧ fsLookup (downloadBuild cB64 cHttp cInflate cSha cFailDeleteAA "osrs" "out"
        cMetafile []).1 "out/combined_file" = some [65, 65, 65, 66, 66, 66] := by
  refine ⟨rfl, rfl, rfl⟩

/-- C6 (amended): once every output file has been written, a failed
deletion during cleanup aborts the remaining cleanup and propagates out of
`download_build` as the run's error; it does not, however, delete or alter
any non-staging file — every path that is neither a `.solidpiece` entry nor
the combined artifact, in particular every already-written output file,
keeps its contents. -/
theorem cleanup_failure_aborts_and_fails_run (b64decode : String → Option Bytes)
    (http : Url → Option HttpResponse) (inflate : Bytes → Option Bytes)
    (sha256hex : Bytes → String) (failDelete : String → Bool)
    (repo outputDir : String) (metafile : Metafile) (fs fs1 fs2 fs3 fs4 : FS)
    (pieceUrls : List Url) (cp : String) (e : DlError)
    (hgen : generatePieceUrls b64decode repo metafile.pieces = .ok pieceUrls)
    (hfetch : downloadAndProcessPieces http inflate sha256hex outputDir fs pieceUrls
      = (fs1, none))
    (hcomb : combinePieceFiles outputDir fs1 pieceUrls = (fs2, .ok cp))
    (hext : extractFilesFromArchive outputDir fs2 cp metafile.files = (fs3, none))
    (hclean : cleanupTemporaryFiles failDelete outputDir fs3 cp = (fs4, some e)) :
    downloadBuild b64decode http inflate sha256hex failDelete repo outputDir metafile fs
        = (fs4, some e)
    ∧ ∀ q, ¬ extensionOf q = some "solidpiece" → ¬ q = cp →
        fsLookup fs4 q = fsLookup fs3 q := by
  constructor
  · unfold downloadBuild
    rw [hgen]
    dsimp only
    rw [hfetch]
    dsimp only
    rw [hcomb]
    dsimp only
    rw [hext]
    dsimp only
    exact hclean
  · intro q h1 h2
    have hpres := cleanupTemporaryFiles_preserves failDelete outputDir fs3 cp q h1 h2
    rwa [hclean] at hpres

/-- Witness for the amended C6 theorem at the concrete run, also recording
that the output file `a` written before cleanup is still intact. -/
theorem cleanup_failure_aborts_and_fails_run_witness :
    downloadBuild cB64 cHttp cInflate cSha cFailDeleteAA "osrs" "out" cMetafile []
        = (cFs3, some (.cleanupError "out/aa01.solidpiece"))
    ∧ fsLookup cFs3 "out/a" = some [65, 65, 65] := by
  have h := cleanup_failure_aborts_and_fails_run cB64 cHttp cInflate cSha cFailDeleteAA
    "osrs" "out" cMetafile [] cFs1 cFs2 cFs3 cFs3 [cUrl1, cUrl2] "out/combined_file"
    (.cleanupError "out/aa01.solidpiece") rfl rfl rfl rfl rfl
  exact ⟨h.1, by decide⟩

/-- C9: extraction (reassembly followed by slicing) from an already-verified
piece store is idempotent — a second run succeeds and leaves every output
file with bytes identical to the first run's, provided no descriptor names
its output onto a piece file or onto the staging artifact itself (paths the
phases would otherwise alias). -/
theorem extraction_idempotent (outputDir : String) (fs fsA : FS)
    (pieceUrls : List Url) (fileList : List MetafileEntry) (store : Url → Bytes)
    (hstore : ∀ u ∈ pieceUrls, fsLookup fs (piecePath outputDir u) = some (store u))
    (hne : ∀ u ∈ pieceUrls, ¬ piecePath outputDir u = combinedPathOf outputDir)
    (hout : ∀ f ∈ fileList, ∀ u ∈ pieceUrls,
        ¬ outputDir ++ "/" ++ f.name = piecePath outputDir u)
    (houtc : ∀ f ∈ fileList, ¬ outputDir ++ "/" ++ f.name = combinedPathOf outputDir)
    (hA : runExtraction outputDir fs pieceUrls fileList = (fsA, none)) :
    (runExtraction outputDir fsA pieceUrls fileList).2 = none
    ∧ ∀ f ∈ fileList,
        fsLookup (runExtraction outputDir fsA pieceUrls fileList).1
            (outputDir ++ "/" ++ f.name)
          = fsLookup fsA (outputDir ++ "/" ++ f.name) := by
  have hcomb1 := combinePieceFiles_ok outputDir fs pieceUrls store hstore hne
  have hextA : extractFilesFromArchive outputDir
      (fsWrite fs (combinedPathOf outputDir) ((pieceUrls.map store).flatten))
      (combinedPathOf outputDir) fileList = (fsA, none) := by
    unfold runExtraction at hA
    rw [hcomb1] at hA
    exact hA
  have hlkA : fsLookup
      (fsWrite fs (combinedPathOf outputDir) ((pieceUrls.map store).flatten))
      (combinedPathOf outputDir) = some ((pieceUrls.map store).flatten) :=
    fsLookup_fsWrite_self _ _ _
  have hbound : sumSizes fileList ≤ ((pieceUrls.map store).flatten).length := by
    have h2 : (extractFilesFromArchive outputDir
        (fsWrite fs (combinedPathOf outputDir) ((pieceUrls.map store).flatten))
        (combinedPathOf outputDir) fileList).2 = none := by rw [hextA]
    unfold extractFilesFromArchive at h2
    rw [hlkA] at h2
    dsimp only at h2
    have h3 := (extractLoop_none_iff outputDir _ _ 0 fileList (Nat.zero_le _)).mp h2
    omega
  have hAval : fsA = applyWrites
      (fsWrite fs (combinedPathOf outputDir) ((pieceUrls.map store).flatten))
      (sliceWrites outputDir ((pieceUrls.map store).flatten) 0 fileList) := by
    have hsucc := extractLoop_success outputDir
      (fsWrite fs (combinedPathOf outputDir) ((pieceUrls.map store).flatten))
      ((pieceUrls.map store).flatten) 0 fileList (by omega)
    unfold extractFilesFromArchive at hextA
    rw [hlkA] at hextA
    dsimp only at hextA
    rw [hsucc] at hextA
    have := congrArg Prod.fst hextA
    simpa using this.symm
  have hstoreA : ∀ u ∈ pieceUrls, fsLookup fsA (piecePath outputDir u) = some (store u) := by
    intro u hu
    have hws : ∀ w ∈ sliceWrites outputDir ((pieceUrls.map store).flatten) 0 fileList,
        ¬ piecePath outputDir u = w.1 := by
      intro w hw hpw
      obtain ⟨f, hf, hfp⟩ := sliceWrites_mem_path _ _ _ _ w hw
      rw [hfp] at hpw
      exact hout f hf u hu hpw.symm
    rw [hAval, applyWrites_preserves _ _ _ hws,
      fsLookup_fsWrite_ne _ _ _ _ (hne u hu)]
    exact hstore u hu
  have hcomb2 := combinePieceFiles_ok outputDir fsA pieceUrls store hstoreA hne
  have hextB : extractFilesFromArchive outputDir
      (fsWrite fsA (combinedPathOf outputDir) ((pieceUrls.map store).flatten))
      (combinedPathOf outputDir) fileList
      = (applyWrites (fsWrite fsA (combinedPathOf outputDir) ((pieceUrls.map store).flatten))
          (sliceWrites outputDir ((pieceUrls.map store).flatten) 0 fileList), none) := by
    unfold extractFilesFromArchive
    rw [fsLookup_fsWrite_self]
    exact extractLoop_success _ _ _ _ _ (by omega)
  have hrunB : runExtraction outputDir fsA pieceUrls fileList
      = (applyWrites (fsWrite fsA (combinedPathOf outputDir) ((pieceUrls.map store).flatten))
          (sliceWrites outputDir ((pieceUrls.map store).flatten) 0 fileList), none) := by
    unfold runExtraction
    rw [hcomb2]
    dsimp only
    exact hextB
  constructor
  · rw [hrunB]
  · intro f hf
    rw [hrunB]
    dsimp only
    rw [hAval]
    apply applyWrites_lookup_congr
    obtain ⟨w, hw, hwp⟩ := sliceWrites_path_mem outputDir
      ((pieceUrls.map store).flatten) 0 fileList f hf
    exact ⟨w, hw, hwp⟩

/-- Witness for C9 at the concrete verified piece store: the second
extraction run succeeds and reproduces output `a` byte-identically. -/
theorem extraction_idempotent_witness :
    (runExtraction "out"
        (("out/b", [66, 66]) :: ("out/a", [65, 65, 65])
          :: ("out/combined_file", [65, 65, 65, 66, 66, 66])
          :: ("out/ff00.solidpiece", [65, 65, 65]) :: ("out/aa01.solidpiece", [66, 66, 66]) :: [])
        [cUrl1, cUrl2] cMetafile.files).2 = none
    ∧ fsLookup (runExtraction "out"
        (("out/b", [66, 66]) :: ("out/a", [65, 65, 65])
          :: ("out/combined_file", [65, 65, 65, 66, 66, 66])
          :: ("out/ff00.solidpiece", [65, 65, 65]) :: ("out/aa01.solidpiece", [66, 66, 66]) :: [])
        [cUrl1, cUrl2] cMetafile.files).1 "out/a"
      = fsLookup (("out/b", [66, 66]) :: ("out/a", [65, 65, 65])
          :: ("out/combined_file", [65, 65, 65, 66, 66, 66])
          :: ("out/ff00.solidpiece", [65, 65, 65]) :: ("out/aa01.solidpiece", [66, 66, 66]) :: [])
          "out/a" := by
  have h := extraction_idempotent "out"
    [("out/ff00.solidpiece", [65, 65, 65]), ("out/aa01.solidpiece", [66, 66, 66])]
    (("out/b", [66, 66]) :: ("out/a", [65, 65, 65])
      :: ("out/combined_file", [65, 65, 65, 66, 66, 66])
      :: ("out/ff00.solidpiece", [65, 65, 65]) :: ("out/aa01.solidpiece", [66, 66, 66]) :: [])
    [cUrl1, cUrl2] cMetafile.files cStore
    (by decide) (by decide) (by decide) (by decide) rfl
  exact ⟨h.1, h.2 ⟨0, "a", 3⟩ (by decide)⟩
